import Mathlib

/-!
Verification of the ProyectoDiorama raytracer core.

Shallow embedding of the repository's core (ray/cube intersection, texture
lookup, material color resolution, camera orbit/zoom, and the recursive
shading function) together with theorems checking the specification's
claims against it.

Modelling conventions:
* `f32` scalar arithmetic in the shading and camera code is modelled over
  `ℝ` (exact arithmetic); `u32`/`usize` arithmetic is modelled over `ℕ`
  with an explicit `% 2^32` wherever the source performs `u32` operations
  that may wrap.
* The cube slab intersection divides by ray-direction components that may
  be zero; the source relies on IEEE-754 infinities and NaNs propagating
  through the min/max comparisons.  That part is embedded over `XRat`, an
  extension of `ℚ` with `+∞`, `-∞` and `NaN` whose operations follow the
  IEEE-754 rules exercised by the source (all concrete inputs used in the
  claims are exactly representable in `f32`, so exact rational arithmetic
  agrees with the float computation there).
* Rust `Option` is `Option`; trait objects (`&dyn RayIntersect`) are
  modelled as plain functions from a ray to an intersection record; the
  `HashMap<char, Texture>` is modelled as an association list.
-/

/-- Model of `raylib::Color`: an 8-bit RGBA color (each component a byte value). -/
structure Color where
  r : ℕ
  g : ℕ
  b : ℕ
  a : ℕ
deriving DecidableEq

/-- Model of `textures.rs`: an in-memory RGBA8 texture, `data` a flat row-major
byte buffer with 4 bytes per pixel. -/
structure Texture where
  width : ℕ
  height : ℕ
  data : List ℕ
deriving DecidableEq

/-- Model of `texture_manager.rs`: the texture registry, a map from a `char` key to
a `Texture` (the source's `HashMap` modelled as an association list). -/
abbrev TextureManager : Type := List (Char × Texture)

/-- Lookup in the registry, modelling `HashMap::get`. -/
def lookupTex : TextureManager → Char → Option Texture
  | [], _ => none
  | (k, t) :: rest, key => if k = key then some t else lookupTex rest key

/-- The `u32` modulus. -/
def U32M : ℕ := 4294967296

/-- Computes `w - 1` in wrapping `u32` arithmetic (`tex.width - 1` in the source). -/
def u32sub1 (w : ℕ) : ℕ := (w + (U32M - 1)) % U32M

/-- The flat byte index computed by `TextureManager::get_pixel_color`:
clamp `x`/`y` with `min` against `width-1`/`height-1`, then
`(y * width + x) * 4` in `u32` arithmetic. -/
def pixelIndex (tex : Texture) (x y : ℕ) : ℕ :=
  let xc := min x (u32sub1 tex.width)
  let yc := min y (u32sub1 tex.height)
  ((yc * tex.width) % U32M + xc) % U32M * 4 % U32M

/-- Model of `TextureManager::get_pixel_color`: clamped pixel fetch, magenta
`(255,0,255,255)` when the key is absent.  Byte reads are modelled with
`List.getD` (the bounds theorem shows the default is never consulted for
textures satisfying the data-length invariant). -/
def get_pixel_color (tm : TextureManager) (key : Char) (x y : ℕ) : Color :=
  match lookupTex tm key with
  | some tex =>
      let idx := pixelIndex tex x y
      ⟨tex.data.getD idx 0, tex.data.getD (idx + 1) 0,
       tex.data.getD (idx + 2) 0, tex.data.getD (idx + 3) 0⟩
  | none => ⟨255, 0, 255, 255⟩

/-- A 3-component `f32` vector (`raylib::Vector3`), modelled over `ℝ`. -/
structure Vec3R where
  x : ℝ
  y : ℝ
  z : ℝ

namespace Vec3R

def add (a b : Vec3R) : Vec3R := ⟨a.x + b.x, a.y + b.y, a.z + b.z⟩

def sub (a b : Vec3R) : Vec3R := ⟨a.x - b.x, a.y - b.y, a.z - b.z⟩

def neg (a : Vec3R) : Vec3R := ⟨-a.x, -a.y, -a.z⟩

/-- Componentwise scaling `Vector3 * f32`. -/
def scale (a : Vec3R) (s : ℝ) : Vec3R := ⟨a.x * s, a.y * s, a.z * s⟩

def dot (a b : Vec3R) : ℝ := a.x * b.x + a.y * b.y + a.z * b.z

def cross (a b : Vec3R) : Vec3R :=
  ⟨a.y * b.z - a.z * b.y, a.z * b.x - a.x * b.z, a.x * b.y - a.y * b.x⟩

noncomputable def length (a : Vec3R) : ℝ := Real.sqrt (dot a a)

/-- raylib `Vector3::normalized`: divide by the length, guarding a zero
length by using `1` instead (raylib's `Vector3Normalize` guard). -/
noncomputable def normalize (a : Vec3R) : Vec3R :=
  let l := length a
  let l := if l = 0 then 1 else l
  ⟨a.x / l, a.y / l, a.z / l⟩

def zero : Vec3R := ⟨0, 0, 0⟩

end Vec3R

/-- Model of `material.rs`: shading parameters.  The `[f32; 4]` albedo array is
spelled as four fields `albedo0 .. albedo3`. -/
structure Material where
  diffuse : Vec3R
  albedo0 : ℝ
  albedo1 : ℝ
  albedo2 : ℝ
  albedo3 : ℝ
  specular : ℝ
  refractive_index : ℝ
  texture_key : Option Char

/-- Model of `Material::with_texture`. -/
def Material.with_texture (diffuse : Vec3R) (specular : ℝ)
    (a0 a1 a2 a3 : ℝ) (refractive_index : ℝ) (key : Char) : Material :=
  ⟨diffuse, a0, a1, a2, a3, specular, refractive_index, some key⟩

/-- Conversion `f32 as u8` after a `clamp(0.0, 255.0)`: floor of the clamped value. -/
noncomputable def toByte (v : ℝ) : ℕ := (Int.floor (min (max v 0) 255)).toNat

/-- Model of `material.rs::vector3_to_color`: each component scaled by 255,
clamped to `[0, 255]` and truncated to a byte. -/
noncomputable def vector3_to_color (v : Vec3R) : Color :=
  ⟨toByte (v.x * 255), toByte (v.y * 255), toByte (v.z * 255), 255⟩

/-- Conversion `f32 as u32` of a value already clamped into `[0, hi]`: floor. -/
noncomputable def toU32 (v : ℝ) : ℕ := (Int.floor v).toNat

/-- Model of `Material::color_at`: resolve the color at UV coordinates.  When the
material has a texture key present in the registry, sample the texture at
the clamped pixel coordinates; otherwise fall back to the solid diffuse
color. -/
noncomputable def Material.color_at (m : Material) (tm : TextureManager)
    (u v : ℝ) : Color :=
  match m.texture_key with
  | some k =>
      match lookupTex tm k with
      | some tex =>
          let w1 : ℝ := (tex.width : ℝ) - 1
          let h1 : ℝ := (tex.height : ℝ) - 1
          let tx := toU32 (min (max (u * w1) 0) w1)
          let ty := toU32 (min (max ((1 - v) * h1) 0) h1)
          get_pixel_color tm k tx ty
      | none => vector3_to_color m.diffuse
  | none => vector3_to_color m.diffuse

/-- The six faces of a cube (`ray_intersect.rs::CubeFace`). -/
inductive CubeFace where
  | Front
  | Back
  | Left
  | Right
  | Top
  | Bottom
deriving DecidableEq

/-- Extended rationals modelling the `f32` values arising in the slab
intersection: finite values, the two infinities produced by `1.0 / 0.0`,
and NaN (produced e.g. by `0.0 * inf`).  Operations follow IEEE-754. -/
inductive XRat where
  | nan : XRat
  | pinf : XRat
  | ninf : XRat
  | fin : ℚ → XRat
deriving DecidableEq

namespace XRat

def neg : XRat → XRat
  | nan => nan
  | pinf => ninf
  | ninf => pinf
  | fin a => fin (-a)

def add : XRat → XRat → XRat
  | nan, _ => nan
  | _, nan => nan
  | pinf, ninf => nan
  | ninf, pinf => nan
  | pinf, _ => pinf
  | _, pinf => pinf
  | ninf, _ => ninf
  | _, ninf => ninf
  | fin a, fin b => fin (a + b)

def sub (a b : XRat) : XRat := add a (neg b)

def mul : XRat → XRat → XRat
  | nan, _ => nan
  | _, nan => nan
  | pinf, pinf => pinf
  | pinf, ninf => ninf
  | ninf, pinf => ninf
  | ninf, ninf => pinf
  | pinf, fin b => if b = 0 then nan else if 0 < b then pinf else ninf
  | fin a, pinf => if a = 0 then nan else if 0 < a then pinf else ninf
  | ninf, fin b => if b = 0 then nan else if 0 < b then ninf else pinf
  | fin a, ninf => if a = 0 then nan else if 0 < a then ninf else pinf
  | fin a, fin b => fin (a * b)

/-- IEEE `<`: false whenever an operand is NaN. -/
def lt : XRat → XRat → Bool
  | fin a, fin b => decide (a < b)
  | fin _, pinf => true
  | ninf, fin _ => true
  | ninf, pinf => true
  | _, _ => false

/-- IEEE `<=`: false whenever an operand is NaN. -/
def le : XRat → XRat → Bool
  | nan, _ => false
  | _, nan => false
  | ninf, _ => true
  | _, pinf => true
  | pinf, _ => false
  | fin a, fin b => decide (a ≤ b)
  | fin _, ninf => false

def abs : XRat → XRat
  | nan => nan
  | pinf => pinf
  | ninf => pinf
  | fin a => fin |a|

/-- IEEE division of extended values (used for the face-local UV
normalization; divisor zero follows the `+0.0` sign convention). -/
def div : XRat → XRat → XRat
  | nan, _ => nan
  | _, nan => nan
  | pinf, pinf => nan
  | pinf, ninf => nan
  | ninf, pinf => nan
  | ninf, ninf => nan
  | pinf, fin b => if 0 ≤ b then pinf else ninf
  | ninf, fin b => if 0 ≤ b then ninf else pinf
  | fin _, pinf => fin 0
  | fin _, ninf => fin 0
  | fin a, fin b =>
      if b = 0 then (if a = 0 then nan else if 0 < a then pinf else ninf)
      else fin (a / b)

/-- Computes `1.0 / d` for a finite `f32` direction component `d` (the source's
`inv_dir`); `1.0 / +0.0 = +inf`. -/
def recipQ (q : ℚ) : XRat := if q = 0 then pinf else fin q⁻¹

end XRat

/-- Exact-rational 3-vector (positions and directions fed to the slab
intersection). -/
structure Vec3Q where
  x : ℚ
  y : ℚ
  z : ℚ
deriving DecidableEq

/-- A 3-vector of extended rationals (hit points, which can be NaN/inf for
degenerate rays). -/
structure Vec3X where
  x : XRat
  y : XRat
  z : XRat
deriving DecidableEq

/-- The intersection record (`ray_intersect.rs::Intersect`) as produced by
the cube slab code, in the extended-rational model. -/
structure IntersectX where
  point : Vec3X
  normal : Vec3Q
  distance : XRat
  is_intersecting : Bool
  material : Material
  u : XRat
  v : XRat
  face : CubeFace

/-- Model of `Intersect::empty()`. -/
def IntersectX.empty : IntersectX :=
  { point := ⟨.fin 0, .fin 0, .fin 0⟩
    normal := ⟨0, 0, 0⟩
    distance := .fin 0
    is_intersecting := false
    material := Material.with_texture ⟨0, 0, 0⟩ 0 0 0 0 0 1 'b'
    u := .fin 0
    v := .fin 0
    face := .Front }

/-- Model of `cube.rs::Cube`. -/
structure Cube where
  center : Vec3Q
  size : ℚ
  material : Material

/-- The cube's minimum corner `center - (half, half, half)`. -/
def Cube.minV (c : Cube) : Vec3Q :=
  ⟨c.center.x - c.size * (1/2), c.center.y - c.size * (1/2),
   c.center.z - c.size * (1/2)⟩

/-- The cube's maximum corner `center + (half, half, half)`. -/
def Cube.maxV (c : Cube) : Vec3Q :=
  ⟨c.center.x + c.size * (1/2), c.center.y + c.size * (1/2),
   c.center.z + c.size * (1/2)⟩

/-- Per-face data: outward normal, face tag, and face-local UV. -/
structure FaceData where
  normal : Vec3Q
  face : CubeFace
  u : XRat
  v : XRat

/-- The face-classification chain from `Cube::ray_intersect`: compare the
hit point against the six boundary planes within epsilon `1e-4`, first
match wins, in the source's order Left, Right, Bottom, Top, Back, with
Front as the final fallback. -/
def classifyFace (minv maxv : Vec3Q) (p : Vec3X) : FaceData :=
  let eps : XRat := .fin (1/10000)
  if XRat.lt (XRat.abs (XRat.sub p.x (.fin minv.x))) eps then
    { normal := ⟨-1, 0, 0⟩, face := .Left
      u := XRat.div (XRat.sub p.z (.fin minv.z)) (.fin (maxv.z - minv.z))
      v := XRat.div (XRat.sub p.y (.fin minv.y)) (.fin (maxv.y - minv.y)) }
  else if XRat.lt (XRat.abs (XRat.sub p.x (.fin maxv.x))) eps then
    { normal := ⟨1, 0, 0⟩, face := .Right
      u := XRat.div (XRat.sub p.z (.fin minv.z)) (.fin (maxv.z - minv.z))
      v := XRat.div (XRat.sub p.y (.fin minv.y)) (.fin (maxv.y - minv.y)) }
  else if XRat.lt (XRat.abs (XRat.sub p.y (.fin minv.y))) eps then
    { normal := ⟨0, -1, 0⟩, face := .Bottom
      u := XRat.div (XRat.sub p.x (.fin minv.x)) (.fin (maxv.x - minv.x))
      v := XRat.div (XRat.sub p.z (.fin minv.z)) (.fin (maxv.z - minv.z)) }
  else if XRat.lt (XRat.abs (XRat.sub p.y (.fin maxv.y))) eps then
    { normal := ⟨0, 1, 0⟩, face := .Top
      u := XRat.div (XRat.sub p.x (.fin minv.x)) (.fin (maxv.x - minv.x))
      v := XRat.div (XRat.sub p.z (.fin minv.z)) (.fin (maxv.z - minv.z)) }
  else if XRat.lt (XRat.abs (XRat.sub p.z (.fin minv.z))) eps then
    { normal := ⟨0, 0, -1⟩, face := .Back
      u := XRat.div (XRat.sub p.x (.fin minv.x)) (.fin (maxv.x - minv.x))
      v := XRat.div (XRat.sub p.y (.fin minv.y)) (.fin (maxv.y - minv.y)) }
  else
    { normal := ⟨0, 0, 1⟩, face := .Front
      u := XRat.div (XRat.sub p.x (.fin minv.x)) (.fin (maxv.x - minv.x))
      v := XRat.div (XRat.sub p.y (.fin minv.y)) (.fin (maxv.y - minv.y)) }

/-- The conditional swap of the source (`if tmin > tmax: mem::swap`),
returning the ordered pair for one axis slab. -/
def slabOrder (t1 t2 : XRat) : XRat × XRat :=
  if XRat.lt t2 t1 then (t2, t1) else (t1, t2)

/-- The running-interval lower-bound update
(`if tymin > tmin { tmin = tymin }`). -/
def slabLower (tmin tother : XRat) : XRat :=
  if XRat.lt tmin tother then tother else tmin

/-- The running-interval upper-bound update
(`if tymax < tmax { tmax = tymax }`). -/
def slabUpper (tmax tother : XRat) : XRat :=
  if XRat.lt tother tmax then tother else tmax

/-- Entry/exit selection (`t = if tmin > 0.0 { tmin } else { tmax }`). -/
def pickEntry (tmin tmax : XRat) : XRat :=
  if XRat.lt (.fin 0) tmin then tmin else tmax

/-- Model of `Cube::ray_intersect`: the slab method with IEEE reciprocals (no
divide-by-zero special case), interval intersection across the three
axes, entry/exit selection, and face classification. -/
def Cube.ray_intersect (c : Cube) (ray_origin ray_direction : Vec3Q) :
    IntersectX :=
  let minv := c.minV
  let maxv := c.maxV
  let invx := XRat.recipQ ray_direction.x
  let invy := XRat.recipQ ray_direction.y
  let invz := XRat.recipQ ray_direction.z
  let txmm := slabOrder (XRat.mul (.fin (minv.x - ray_origin.x)) invx)
    (XRat.mul (.fin (maxv.x - ray_origin.x)) invx)
  let txmin := txmm.1
  let txmax := txmm.2
  let tymm := slabOrder (XRat.mul (.fin (minv.y - ray_origin.y)) invy)
    (XRat.mul (.fin (maxv.y - ray_origin.y)) invy)
  let tymin := tymm.1
  let tymax := tymm.2
  if XRat.lt tymax txmin || XRat.lt txmax tymin then IntersectX.empty else
  let tmin1 := slabLower txmin tymin
  let tmax1 := slabUpper txmax tymax
  let tzmm := slabOrder (XRat.mul (.fin (minv.z - ray_origin.z)) invz)
    (XRat.mul (.fin (maxv.z - ray_origin.z)) invz)
  let tzmin := tzmm.1
  let tzmax := tzmm.2
  if XRat.lt tzmax tmin1 || XRat.lt tmax1 tzmin then IntersectX.empty else
  let tmin2 := slabLower tmin1 tzmin
  let tmax2 := slabUpper tmax1 tzmax
  let t := pickEntry tmin2 tmax2
  if XRat.lt t (.fin 0) then IntersectX.empty else
  let point : Vec3X :=
    ⟨XRat.add (.fin ray_origin.x) (XRat.mul (.fin ray_direction.x) t),
     XRat.add (.fin ray_origin.y) (XRat.mul (.fin ray_direction.y) t),
     XRat.add (.fin ray_origin.z) (XRat.mul (.fin ray_direction.z) t)⟩
  let fd := classifyFace minv maxv point
  { point := point, normal := fd.normal, distance := t,
    is_intersecting := true, material := c.material,
    u := fd.u, v := fd.v, face := fd.face }

/-- Model of `light.rs::Light`: a single point light. -/
structure Light where
  position : Vec3R
  color : Color
  intensity : ℝ

/-- The intersection record as consumed by the shading code in `main.rs`,
in the real-number model (same source struct as `IntersectX`, instantiated
at the scalar model used for shading). -/
structure Intersect where
  point : Vec3R
  normal : Vec3R
  distance : ℝ
  is_intersecting : Bool
  material : Material
  u : ℝ
  v : ℝ
  face : CubeFace

/-- Model of `Intersect::empty()` in the real-number model. -/
def Intersect.empty : Intersect :=
  { point := ⟨0, 0, 0⟩
    normal := ⟨0, 0, 0⟩
    distance := 0
    is_intersecting := false
    material := Material.with_texture ⟨0, 0, 0⟩ 0 0 0 0 0 1 'b'
    u := 0
    v := 0
    face := .Front }

/-- A scene object (`&dyn RayIntersect`): its `ray_intersect` method. -/
def RayObject : Type := Vec3R → Vec3R → Intersect

/-- Model of `main.rs::ORIGIN_BIAS = 1e-4`. -/
noncomputable def ORIGIN_BIAS : ℝ := 1 / 10000

/-- Model of `main.rs::offset_origin`: push a secondary-ray origin off the surface
along the normal, away from the side the new direction leaves. -/
noncomputable def offset_origin (intersect : Intersect) (direction : Vec3R) :
    Vec3R :=
  let offset := intersect.normal.scale ORIGIN_BIAS
  if Vec3R.dot direction intersect.normal < 0 then
    intersect.point.sub offset
  else
    intersect.point.add offset

/-- Model of `main.rs::reflect`. -/
noncomputable def reflect (incident normal : Vec3R) : Vec3R :=
  incident.sub (normal.scale (2 * Vec3R.dot incident normal))

/-- Model of `main.rs::refract`: Snell's law with the entering/exiting swap and
`None` on total internal reflection (`k < 0`). -/
noncomputable def refract (incident normal : Vec3R)
    (refractive_index : ℝ) : Option Vec3R :=
  let cosi0 := min (max (Vec3R.dot incident normal) (-1)) 1
  if 0 < cosi0 then
    -- exiting: swap etai/etat and flip the normal
    let eta := refractive_index / 1
    let k := 1 - eta * eta * (1 - cosi0 * cosi0)
    if k < 0 then none
    else some ((incident.scale eta).add
      ((normal.neg).scale (eta * cosi0 - Real.sqrt k)))
  else
    let cosi := -cosi0
    let eta := 1 / refractive_index
    let k := 1 - eta * eta * (1 - cosi * cosi)
    if k < 0 then none
    else some ((incident.scale eta).add
      (normal.scale (eta * cosi - Real.sqrt k)))

/-- The shadow-ray loop of `main.rs::cast_shadow`: return `1.0` at the
first object whose intersection is closer than the light, else `0.0`. -/
noncomputable def shadowLoop (origin dir : Vec3R) (light_distance : ℝ) :
    List RayObject → ℝ
  | [] => 0
  | obj :: rest =>
      let shadow_intersect := obj origin dir
      if shadow_intersect.is_intersecting = true ∧
          shadow_intersect.distance < light_distance then 1
      else shadowLoop origin dir light_distance rest

/-- Model of `main.rs::cast_shadow`. -/
noncomputable def cast_shadow (intersect : Intersect) (light : Light)
    (objects : List RayObject) : ℝ :=
  let light_dir := Vec3R.normalize (light.position.sub intersect.point)
  let light_distance := Vec3R.length (light.position.sub intersect.point)
  let shadow_ray_origin := offset_origin intersect light_dir
  shadowLoop shadow_ray_origin light_dir light_distance objects

open Classical

/-- The nearest-hit scan of `cast_ray`: fold over the object list keeping
the closest intersection, with the z-buffer starting at `+∞`. -/
noncomputable def scanHit (origin dir : Vec3R) :
    List RayObject → Intersect × EReal → Intersect × EReal
  | [], acc => acc
  | obj :: rest, (best, zbuffer) =>
      let i := obj origin dir
      if i.is_intersecting = true ∧ ((i.distance : ℝ) : EReal) < zbuffer then
        scanHit origin dir rest (i, ((i.distance : ℝ) : EReal))
      else
        scanHit origin dir rest (best, zbuffer)

/-- Model of `main.rs::procedural_sky`: vertical gradient keyed on the normalized
direction's `y`. -/
noncomputable def procedural_sky (dir : Vec3R) : Vec3R :=
  let d := Vec3R.normalize dir
  let t := (d.y + 1) * (1/2)
  let green : Vec3R := ⟨1/10, 6/10, 2/10⟩
  let white : Vec3R := ⟨1, 1, 1⟩
  let blue : Vec3R := ⟨3/10, 5/10, 1⟩
  if t < 54/100 then
    let k := t / (55/100)
    (green.scale (1 - k)).add (white.scale k)
  else if t < 55/100 then white
  else if t < 8/10 then
    let k := (t - 55/100) / (25/100)
    (white.scale (1 - k)).add (blue.scale k)
  else blue

/-- The refraction contribution of `cast_ray` (the `refract_color`
binding), with the recursive `cast_ray` call at `depth + 1` abstracted as
`recur`: on total internal reflection fall back to tracing the mirror
reflection from a bias-offset origin. -/
noncomputable def refractComponent (recur : Vec3R → Vec3R → Vec3R)
    (ray_direction : Vec3R) (intersect : Intersect) : Vec3R :=
  let transparency := intersect.material.albedo3
  if 0 < transparency then
    match refract ray_direction intersect.normal
        intersect.material.refractive_index with
    | some refract_dir =>
        recur (offset_origin intersect refract_dir) refract_dir
    | none =>
        let reflect_dir := Vec3R.normalize (reflect ray_direction
          intersect.normal)
        recur (offset_origin intersect reflect_dir) reflect_dir
  else Vec3R.zero

/-- Model of `main.rs::cast_ray`: depth-limited recursive Whitted shading.  Beyond
depth 3 it returns the procedural sky; otherwise nearest hit, Phong
shading with shadow attenuation and texture-resolved diffuse color, plus
recursive reflection/refraction at `depth + 1`. -/
noncomputable def cast_ray (ray_origin ray_direction : Vec3R)
    (objects : List RayObject) (light : Light) (tm : TextureManager)
    (depth : ℕ) : Vec3R :=
  if h : 3 < depth then procedural_sky ray_direction else
  let intersect := (scanHit ray_origin ray_direction objects
    (Intersect.empty, (⊤ : EReal))).1
  if intersect.is_intersecting = false then procedural_sky ray_direction else
  let light_dir := Vec3R.normalize (light.position.sub intersect.point)
  let view_dir := Vec3R.normalize (ray_origin.sub intersect.point)
  let reflect_dir := Vec3R.normalize (reflect light_dir.neg intersect.normal)
  let shadow_intensity := cast_shadow intersect light objects
  let light_intensity := light.intensity * (1 - shadow_intensity)
  let diffuse_intensity :=
    max (Vec3R.dot intersect.normal light_dir) 0 * light_intensity
  let tex_color := intersect.material.color_at tm intersect.u intersect.v
  let tex_v3 : Vec3R :=
    ⟨(tex_color.r : ℝ) / 255, (tex_color.g : ℝ) / 255,
     (tex_color.b : ℝ) / 255⟩
  let diffuse := tex_v3.scale diffuse_intensity
  let specular_intensity :=
    max (Vec3R.dot view_dir reflect_dir) 0 ^ intersect.material.specular *
      light_intensity
  let light_color_v3 : Vec3R :=
    ⟨(light.color.r : ℝ) / 255, (light.color.g : ℝ) / 255,
     (light.color.b : ℝ) / 255⟩
  let specular := light_color_v3.scale specular_intensity
  let phong_color := (diffuse.scale intersect.material.albedo0).add
    (specular.scale intersect.material.albedo1)
  let reflectivity := intersect.material.albedo2
  let reflect_color :=
    if 0 < reflectivity then
      let rdir := Vec3R.normalize (reflect ray_direction intersect.normal)
      cast_ray (offset_origin intersect rdir) rdir objects light tm
        (depth + 1)
    else Vec3R.zero
  let transparency := intersect.material.albedo3
  let refract_color := refractComponent
    (fun o d => cast_ray o d objects light tm (depth + 1))
    ray_direction intersect
  ((phong_color.scale (1 - reflectivity - transparency)).add
    (reflect_color.scale reflectivity)).add
    (refract_color.scale transparency)
termination_by 4 - depth
decreasing_by all_goals omega

/-- Model of `camera.rs::Camera`. -/
structure Camera where
  eye : Vec3R
  center : Vec3R
  up : Vec3R
  forward : Vec3R
  right : Vec3R

/-- Model of `Camera::update_basis_vectors`: recompute the orthonormal basis from
eye, center and up. -/
noncomputable def Camera.update_basis_vectors (c : Camera) : Camera :=
  let forward := Vec3R.normalize (c.center.sub c.eye)
  let right := Vec3R.normalize (forward.cross c.up)
  { c with forward := forward, right := right, up := right.cross forward }

/-- Model of `Camera::new`: fields set, then `update_basis_vectors`. -/
noncomputable def Camera.new (eye center up : Vec3R) : Camera :=
  Camera.update_basis_vectors
    { eye := eye, center := center, up := up,
      forward := Vec3R.zero, right := Vec3R.zero }

/-- Rust `f32::clamp(lo, hi)` for non-NaN values. -/
noncomputable def rclamp (x lo hi : ℝ) : ℝ := min (max x lo) hi

/-- Model of `f32::atan2` (total; the orbit-invariant proofs do not depend
on its value). -/
noncomputable def atan2 (y x : ℝ) : ℝ :=
  if 0 < x then Real.arctan (y / x)
  else if x < 0 then
    (if 0 ≤ y then Real.arctan (y / x) + Real.pi
     else Real.arctan (y / x) - Real.pi)
  else if 0 < y then Real.pi / 2
  else if y < 0 then -(Real.pi / 2)
  else 0

/-- Model of `Camera::orbit`: spherical reposition of the eye about the center
with the pitch clamped to `[-1.5, 1.5]`, then `update_basis_vectors`. -/
noncomputable def Camera.orbit (c : Camera) (yaw pitch : ℝ) : Camera :=
  let relative_pos := c.eye.sub c.center
  let radius := Vec3R.length relative_pos
  let current_yaw := atan2 relative_pos.z relative_pos.x
  let current_pitch := Real.arcsin (relative_pos.y / radius)
  let new_yaw := current_yaw + yaw
  let new_pitch := rclamp (current_pitch + pitch) (-(3/2)) (3/2)
  let cos_pitch := Real.cos new_pitch
  let new_relative_pos : Vec3R :=
    ⟨radius * cos_pitch * Real.cos new_yaw,
     radius * Real.sin new_pitch,
     radius * cos_pitch * Real.sin new_yaw⟩
  Camera.update_basis_vectors { c with eye := c.center.add new_relative_pos }

/-- Model of `Camera::zoom`: rescale the eye-to-center distance, clamped into
`[1, 100]`, then `update_basis_vectors`. -/
noncomputable def Camera.zoom (c : Camera) (factor : ℝ) : Camera :=
  let relative_pos := c.eye.sub c.center
  let distance := Vec3R.length relative_pos
  let new_distance := rclamp (distance * factor) 1 100
  let new_relative_pos := (Vec3R.normalize relative_pos).scale new_distance
  Camera.update_basis_vectors { c with eye := c.center.add new_relative_pos }

/-- Face order as the claim states it: first plane test within epsilon
`1e-4` wins, in the fixed order Left, Right, Bottom, Top, Back, Front. -/
def faceOrderClaim (minv maxv : Vec3Q) (p : Vec3X) : CubeFace :=
  let eps : XRat := .fin (1/10000)
  if XRat.lt (XRat.abs (XRat.sub p.x (.fin minv.x))) eps then .Left
  else if XRat.lt (XRat.abs (XRat.sub p.x (.fin maxv.x))) eps then .Right
  else if XRat.lt (XRat.abs (XRat.sub p.y (.fin minv.y))) eps then .Bottom
  else if XRat.lt (XRat.abs (XRat.sub p.y (.fin maxv.y))) eps then .Top
  else if XRat.lt (XRat.abs (XRat.sub p.z (.fin minv.z))) eps then .Back
  else .Front

/-- Outward unit normal of each face, as the claim/spec describes it. -/
def normalOfFace : CubeFace → Vec3Q
  | .Left => ⟨-1, 0, 0⟩
  | .Right => ⟨1, 0, 0⟩
  | .Bottom => ⟨0, -1, 0⟩
  | .Top => ⟨0, 1, 0⟩
  | .Back => ⟨0, 0, -1⟩
  | .Front => ⟨0, 0, 1⟩

/-- Face-local UV projection as the spec describes it: the two non-normal
axes of the hit point, each normalized to `[0,1]` by the box's extent on
that axis (Left/Right project Z then Y, Bottom/Top project X then Z,
Back/Front project X then Y). -/
def uvOfFace (f : CubeFace) (minv maxv : Vec3Q) (p : Vec3X) : XRat × XRat :=
  let px := XRat.div (XRat.sub p.x (.fin minv.x)) (.fin (maxv.x - minv.x))
  let py := XRat.div (XRat.sub p.y (.fin minv.y)) (.fin (maxv.y - minv.y))
  let pz := XRat.div (XRat.sub p.z (.fin minv.z)) (.fin (maxv.z - minv.z))
  match f with
  | .Left => (pz, py)
  | .Right => (pz, py)
  | .Bottom => (px, pz)
  | .Top => (px, pz)
  | .Back => (px, py)
  | .Front => (px, py)

/-- The Snell discriminant as the claim states it:
`k = 1 - eta^2 * (1 - cos^2 theta)` with the index ratio swapped when the
ray exits the medium (`incident . normal > 0`), and the incident cosine
clamped into `[-1, 1]`. -/
noncomputable def snellDisc (incident normal : Vec3R)
    (refractive_index : ℝ) : ℝ :=
  let cosi := min (max (Vec3R.dot incident normal) (-1)) 1
  let eta := if 0 < cosi then refractive_index else 1 / refractive_index
  1 - eta ^ 2 * (1 - cosi ^ 2)

/-- An object occludes the light for a given hit: the intersection along
the shadow ray (bias-offset origin, direction toward the light) hits at a
distance strictly less than the hit-point-to-light distance. -/
noncomputable def occludes (intersect : Intersect) (light : Light)
    (obj : RayObject) : Prop :=
  let light_dir := Vec3R.normalize (light.position.sub intersect.point)
  let si := obj (offset_origin intersect light_dir) light_dir
  si.is_intersecting = true ∧
    si.distance < Vec3R.length (light.position.sub intersect.point)

/-- The eye's implied pitch: `asin((eye - center).y / |eye - center|)`. -/
noncomputable def impliedPitch (c : Camera) : ℝ :=
  Real.arcsin ((c.eye.sub c.center).y / Vec3R.length (c.eye.sub c.center))

/-- A camera basis is orthonormal: unit forward/right/up, pairwise
orthogonal. -/
noncomputable def basisOrthonormal (c : Camera) : Prop :=
  Vec3R.length c.forward = 1 ∧ Vec3R.length c.right = 1 ∧
  Vec3R.length c.up = 1 ∧
  Vec3R.dot c.forward c.right = 0 ∧ Vec3R.dot c.forward c.up = 0 ∧
  Vec3R.dot c.right c.up = 0

namespace Vec3R

lemma dot_self_nonneg (v : Vec3R) : 0 ≤ dot v v := by
  unfold dot
  nlinarith [mul_self_nonneg v.x, mul_self_nonneg v.y, mul_self_nonneg v.z]

lemma dot_self_pos {v : Vec3R} (h : v ≠ ⟨0, 0, 0⟩) : 0 < dot v v := by
  rcases v with ⟨x, y, z⟩
  rcases lt_or_eq_of_le (dot_self_nonneg ⟨x, y, z⟩) with hlt | heq
  · exact hlt
  · exfalso
    apply h
    have hx : x = 0 := by
      have : x * x = 0 := by
        unfold dot at heq
        nlinarith [mul_self_nonneg y, mul_self_nonneg z]
      exact mul_self_eq_zero.mp this
    have hy : y = 0 := by
      have : y * y = 0 := by
        unfold dot at heq
        nlinarith [mul_self_nonneg x, mul_self_nonneg z]
      exact mul_self_eq_zero.mp this
    have hz : z = 0 := by
      have : z * z = 0 := by
        unfold dot at heq
        nlinarith [mul_self_nonneg x, mul_self_nonneg y]
      exact mul_self_eq_zero.mp this
    simp [hx, hy, hz]

lemma length_nonneg (v : Vec3R) : 0 ≤ length v := Real.sqrt_nonneg _

lemma length_pos {v : Vec3R} (h : v ≠ ⟨0, 0, 0⟩) : 0 < length v :=
  Real.sqrt_pos.mpr (dot_self_pos h)

lemma sq_length (v : Vec3R) : length v * length v = dot v v :=
  Real.mul_self_sqrt (dot_self_nonneg v)

lemma normalize_eq {v : Vec3R} (h : v ≠ ⟨0, 0, 0⟩) :
    normalize v = ⟨v.x / length v, v.y / length v, v.z / length v⟩ := by
  have hl := length_pos h
  simp only [normalize, if_neg (ne_of_gt hl)]

lemma dot_normalize_self {v : Vec3R} (h : v ≠ ⟨0, 0, 0⟩) :
    dot (normalize v) (normalize v) = 1 := by
  have hl := length_pos h
  have hd := dot_self_pos h
  rw [normalize_eq h]
  show v.x / length v * (v.x / length v) + v.y / length v * (v.y / length v)
    + v.z / length v * (v.z / length v) = 1
  have hsq := sq_length v
  field_simp
  unfold dot at hsq
  linarith [hsq]

lemma length_normalize {v : Vec3R} (h : v ≠ ⟨0, 0, 0⟩) :
    length (normalize v) = 1 := by
  unfold length
  rw [dot_normalize_self h, Real.sqrt_one]

lemma dot_cross_left (a b : Vec3R) : dot (cross a b) a = 0 := by
  unfold dot cross
  ring

lemma dot_cross_right (a b : Vec3R) : dot (cross a b) b = 0 := by
  unfold dot cross
  ring

lemma dot_comm (a b : Vec3R) : dot a b = dot b a := by
  unfold dot
  ring

lemma dot_cross_cross (a b : Vec3R) :
    dot (cross a b) (cross a b) = dot a a * dot b b - dot a b * dot a b := by
  unfold dot cross
  ring

lemma length_scale (v : Vec3R) (s : ℝ) :
    length (scale v s) = |s| * length v := by
  unfold length scale dot
  have h : v.x * s * (v.x * s) + v.y * s * (v.y * s) + v.z * s * (v.z * s)
      = s ^ 2 * (v.x * v.x + v.y * v.y + v.z * v.z) := by ring
  rw [h, Real.sqrt_mul (sq_nonneg s), Real.sqrt_sq_eq_abs]

lemma scale_normalize {v : Vec3R} (h : v ≠ ⟨0, 0, 0⟩) (s : ℝ) :
    scale (normalize v) s = scale v (s / length v) := by
  rw [normalize_eq h]
  unfold scale
  simp only [Vec3R.mk.injEq]
  refine ⟨by ring, by ring, by ring⟩

lemma dot_normalize_left {v : Vec3R} (h : v ≠ ⟨0, 0, 0⟩) (w : Vec3R) :
    dot (normalize v) w = dot v w / length v := by
  rw [normalize_eq h]
  unfold dot
  ring

end Vec3R

/-- An empty texture registry. -/
def emptyTM : TextureManager := []

/-- A plain untextured-look material (all-zero parameters, key `'b'`,
matching the `Intersect::empty` material). -/
def matPlain : Material := Material.with_texture ⟨0, 0, 0⟩ 0 0 0 0 0 1 'b'

/-- A material whose texture key `'x'` is absent from `emptyTM`. -/
def matMissingTex : Material := Material.with_texture ⟨0, 0, 0⟩ 0 0 0 0 0 1 'x'

/-- The unit cube centered at the origin. -/
def unitCube : Cube := ⟨⟨0, 0, 0⟩, 1, matPlain⟩

/-- Claim C1 counterexample: a material with texture key `'x'` absent from
the registry resolves at shading time to its solid diffuse color
`(0,0,0,255)`, not the magenta sentinel `(255,0,255,255)`. -/
theorem c1_counterexample :
    Material.color_at matMissingTex emptyTM 0 0 = ⟨0, 0, 0, 255⟩ ∧
    Material.color_at matMissingTex emptyTM 0 0 ≠ ⟨255, 0, 255, 255⟩ := by
  have h : Material.color_at matMissingTex emptyTM 0 0 = ⟨0, 0, 0, 255⟩ := by
    simp [Material.color_at, matMissingTex, Material.with_texture, emptyTM,
      lookupTex, vector3_to_color, toByte]
  exact ⟨h, by rw [h]; simp⟩

/-- Claim C1 (amended): for every material whose texture identifier is set
but not present in the registry, `Material::color_at` returns the solid
diffuse color `vector3_to_color(diffuse)`; the magenta sentinel is
produced by `TextureManager::get_pixel_color` only when that function is
called directly with an absent key. -/
theorem c1_color_at_absent_key (m : Material) (tm : TextureManager)
    (u v : ℝ) (k : Char) (hk : m.texture_key = some k)
    (habsent : lookupTex tm k = none) :
    m.color_at tm u v = vector3_to_color m.diffuse := by
  simp [Material.color_at, hk, habsent]

/-- Witness for the amended C1 at a concrete material and registry. -/
theorem c1_witness :
    matMissingTex.texture_key = some 'x' ∧
    lookupTex emptyTM 'x' = none ∧
    Material.color_at matMissingTex emptyTM 0 0 =
      vector3_to_color matMissingTex.diffuse :=
  ⟨rfl, rfl, c1_color_at_absent_key matMissingTex emptyTM 0 0 'x' rfl rfl⟩

/-- Claim C2: for the unit cube centered at the origin, the ray from
`(0,0,5)` toward `(0,0,-1)` (zero x/y direction components flowing
through the IEEE reciprocal with no divide-by-zero special case) hits the
Front face at distance `4.5`, point `(0,0,0.5)`, normal `(0,0,1)`, with
`u`, `v` in `[0,1]`. -/
theorem c2_slab_front_hit :
    (unitCube.ray_intersect ⟨0, 0, 5⟩ ⟨0, 0, -1⟩).is_intersecting = true ∧
    (unitCube.ray_intersect ⟨0, 0, 5⟩ ⟨0, 0, -1⟩).distance = .fin (9/2) ∧
    (unitCube.ray_intersect ⟨0, 0, 5⟩ ⟨0, 0, -1⟩).point =
      ⟨.fin 0, .fin 0, .fin (1/2)⟩ ∧
    (unitCube.ray_intersect ⟨0, 0, 5⟩ ⟨0, 0, -1⟩).normal = ⟨0, 0, 1⟩ ∧
    (unitCube.ray_intersect ⟨0, 0, 5⟩ ⟨0, 0, -1⟩).face = .Front ∧
    XRat.le (.fin 0) (unitCube.ray_intersect ⟨0, 0, 5⟩ ⟨0, 0, -1⟩).u = true ∧
    XRat.le (unitCube.ray_intersect ⟨0, 0, 5⟩ ⟨0, 0, -1⟩).u (.fin 1) = true ∧
    XRat.le (.fin 0) (unitCube.ray_intersect ⟨0, 0, 5⟩ ⟨0, 0, -1⟩).v = true ∧
    XRat.le (unitCube.ray_intersect ⟨0, 0, 5⟩ ⟨0, 0, -1⟩).v (.fin 1) = true := by
  norm_num [Cube.ray_intersect, classifyFace, Cube.minV, Cube.maxV, unitCube,
    slabOrder, slabLower, slabUpper, pickEntry,
    XRat.lt, XRat.le, XRat.mul, XRat.add, XRat.sub, XRat.neg, XRat.abs,
    XRat.div, XRat.recipQ, abs_lt]

lemma lookupTex_mem {tm : TextureManager} {k : Char} {t : Texture}
    (h : lookupTex tm k = some t) : (k, t) ∈ tm := by
  induction tm with
  | nil => simp [lookupTex] at h
  | cons p rest ih =>
      rcases p with ⟨a, b⟩
      by_cases hak : a = k
      · subst hak
        simp [lookupTex] at h
        simp [h]
      · simp [lookupTex, hak] at h
        exact List.mem_cons_of_mem _ (ih h)

lemma pixelIndex_bound {w h : ℕ} (x y : ℕ) (hw1 : 1 ≤ w) (hh1 : 1 ≤ h) :
    ((min y (h - 1) * w) % U32M + min x (w - 1)) % U32M * 4 % U32M + 3 <
      w * h * 4 := by
  have hyc : min y (h - 1) ≤ h - 1 := min_le_right _ _
  have hA : min y (h - 1) * w ≤ (h - 1) * w :=
    Nat.mul_le_mul_right w hyc
  have hsub : (h - 1) * w = h * w - w := Nat.sub_one_mul h w
  have hwS : w ≤ h * w := Nat.le_mul_of_pos_left w (by omega)
  have hA2 : min y (h - 1) * w ≤ h * w - w := hsub ▸ hA
  have hcomm : w * h = h * w := Nat.mul_comm w h
  rw [hcomm]
  generalize h * w = S at hA2 hwS ⊢
  generalize min y (h - 1) * w = A at hA2 ⊢
  have hxc : min x (w - 1) ≤ w - 1 := min_le_right _ _
  generalize min x (w - 1) = B at hxc ⊢
  unfold U32M
  omega

/-- Claim C10: for registries whose textures satisfy the RGBA8 data-length
invariant (`u32` dimensions at least 1), `get_pixel_color` never reads out
of bounds: the clamped flat index plus 3 stays below the data length; and
an absent key yields the magenta sentinel without touching any buffer. -/
theorem c10_texture_index_safe (tm : TextureManager) (key : Char) (x y : ℕ)
    (hinv : ∀ p ∈ tm, 1 ≤ p.2.width ∧ p.2.width < U32M ∧
      1 ≤ p.2.height ∧ p.2.height < U32M ∧
      p.2.data.length = p.2.width * p.2.height * 4) :
    (lookupTex tm key = none → get_pixel_color tm key x y = ⟨255, 0, 255, 255⟩) ∧
    (∀ tex, lookupTex tm key = some tex →
      pixelIndex tex x y + 3 < tex.data.length) := by
  constructor
  · intro hnone
    simp [get_pixel_color, hnone]
  · intro tex hsome
    obtain ⟨hw1, hwM, hh1, hhM, hlen⟩ := hinv _ (lookupTex_mem hsome)
    dsimp only at hw1 hwM hh1 hhM hlen
    have hwm1 : u32sub1 tex.width = tex.width - 1 := by
      unfold u32sub1 U32M
      unfold U32M at hwM
      omega
    have hhm1 : u32sub1 tex.height = tex.height - 1 := by
      unfold u32sub1 U32M
      unfold U32M at hhM
      omega
    rw [hlen]
    show ((min y (u32sub1 tex.height) * tex.width) % U32M +
      min x (u32sub1 tex.width)) % U32M * 4 % U32M + 3 <
      tex.width * tex.height * 4
    rw [hwm1, hhm1]
    exact pixelIndex_bound x y hw1 hh1

/-- A concrete one-pixel registry for the C10 witness. -/
def tmOnePixel : TextureManager := [('a', ⟨1, 1, [10, 20, 30, 40]⟩)]

/-- Witness for C10 at a concrete registry, key and coordinates. -/
theorem c10_witness :
    (∀ p ∈ tmOnePixel, 1 ≤ p.2.width ∧ p.2.width < U32M ∧
      1 ≤ p.2.height ∧ p.2.height < U32M ∧
      p.2.data.length = p.2.width * p.2.height * 4) ∧
    (lookupTex tmOnePixel 'c' = none →
      get_pixel_color tmOnePixel 'c' 5 7 = ⟨255, 0, 255, 255⟩) ∧
    (∀ tex, lookupTex tmOnePixel 'a' = some tex →
      pixelIndex tex 5 7 + 3 < tex.data.length) := by
  refine ⟨by decide, ?_, ?_⟩
  · exact (c10_texture_index_safe tmOnePixel 'c' 5 7 (by decide)).1
  · exact (c10_texture_index_safe tmOnePixel 'a' 5 7 (by decide)).2

lemma shadowLoop_one_iff (origin dir : Vec3R) (ld : ℝ)
    (objs : List RayObject) :
    shadowLoop origin dir ld objs = 1 ↔
      ∃ obj ∈ objs, (obj origin dir).is_intersecting = true ∧
        (obj origin dir).distance < ld := by
  induction objs with
  | nil => simp [shadowLoop]
  | cons a rest ih =>
      by_cases hc : (a origin dir).is_intersecting = true ∧
          (a origin dir).distance < ld
      · simp only [shadowLoop, if_pos hc]
        exact ⟨fun _ => ⟨a, List.mem_cons_self a rest, hc⟩, fun _ => trivial⟩
      · simp only [shadowLoop, if_neg hc]
        rw [ih]
        constructor
        · rintro ⟨o, ho, hp⟩
          exact ⟨o, List.mem_cons_of_mem a ho, hp⟩
        · rintro ⟨o, ho, hp⟩
          rcases List.mem_cons.mp ho with rfl | ho'
          · exact absurd hp hc
          · exact ⟨o, ho', hp⟩

lemma shadowLoop_zero_or_one (origin dir : Vec3R) (ld : ℝ)
    (objs : List RayObject) :
    shadowLoop origin dir ld objs = 0 ∨ shadowLoop origin dir ld objs = 1 := by
  induction objs with
  | nil => exact Or.inl rfl
  | cons a rest ih =>
      by_cases hc : (a origin dir).is_intersecting = true ∧
          (a origin dir).distance < ld
      · simp only [shadowLoop, if_pos hc]
        exact Or.inr trivial
      · simp only [shadowLoop, if_neg hc]
        exact ih

/-- Claim C5: `cast_shadow` returns exactly `1.0` precisely when some
object in the list occludes the light (its intersection along the
bias-offset shadow ray hits strictly closer than the light), returns
exactly `0.0` otherwise (no other value is possible), and the outcome is
a membership property of the object list, hence invariant under
reordering. -/
theorem c5_cast_shadow_binary (intersect : Intersect) (light : Light)
    (objects objects' : List RayObject) (hperm : objects.Perm objects') :
    (cast_shadow intersect light objects = 1 ↔
      ∃ obj ∈ objects, occludes intersect light obj) ∧
    (cast_shadow intersect light objects = 0 ↔
      ¬ ∃ obj ∈ objects, occludes intersect light obj) ∧
    (cast_shadow intersect light objects = 0 ∨
      cast_shadow intersect light objects = 1) ∧
    cast_shadow intersect light objects =
      cast_shadow intersect light objects' := by
  have key : ∀ objs : List RayObject,
      cast_shadow intersect light objs = 1 ↔
        ∃ obj ∈ objs, occludes intersect light obj := by
    intro objs
    unfold cast_shadow occludes
    exact shadowLoop_one_iff _ _ _ objs
  have keyor : ∀ objs : List RayObject,
      cast_shadow intersect light objs = 0 ∨
        cast_shadow intersect light objs = 1 := by
    intro objs
    unfold cast_shadow
    exact shadowLoop_zero_or_one _ _ _ objs
  have key0 : ∀ objs : List RayObject,
      cast_shadow intersect light objs = 0 ↔
        ¬ ∃ obj ∈ objs, occludes intersect light obj := by
    intro objs
    constructor
    · intro h0 hex
      have h1 := (key objs).mpr hex
      rw [h0] at h1
      norm_num at h1
    · intro hnex
      rcases keyor objs with h0 | h1
      · exact h0
      · exact absurd ((key objs).mp h1) hnex
  refine ⟨key objects, key0 objects, keyor objects, ?_⟩
  by_cases hex : ∃ obj ∈ objects, occludes intersect light obj
  · obtain ⟨o, ho, hp⟩ := hex
    rw [(key objects).mpr ⟨o, ho, hp⟩,
      (key objects').mpr ⟨o, hperm.mem_iff.mp ho, hp⟩]
  · have hex' : ¬ ∃ obj ∈ objects', occludes intersect light obj := by
      rintro ⟨o, ho, hp⟩
      exact hex ⟨o, hperm.mem_iff.mpr ho, hp⟩
    rw [(key0 objects).mpr hex, (key0 objects').mpr hex']

/-- A concrete white light at the origin region for witnesses. -/
def light0 : Light := ⟨⟨1, -1, 5⟩, ⟨255, 255, 255, 255⟩, 1⟩

/-- Witness for C5: with no objects the shadow intensity is exactly 0. -/
theorem c5_witness : cast_shadow Intersect.empty light0 [] = 0 := by
  have h := (c5_cast_shadow_binary Intersect.empty light0 [] []
    (List.Perm.refl _)).2.1
  rw [h]
  rintro ⟨o, ho, _⟩
  simp at ho

/-- Claim C6: `refract` returns `none` exactly when the Snell discriminant
(with the index ratio swapped and the normal flipped on exiting rays) is
negative, i.e. on total internal reflection; and in that case the
refraction contribution of `cast_ray` for a transparent material
(`albedo[3] > 0`) is the recursive trace of the mirror-reflected ray from
a bias-offset origin. -/
theorem c6_refract_tir (incident normal : Vec3R) (ri : ℝ) :
    (refract incident normal ri = none ↔ snellDisc incident normal ri < 0) ∧
    (∀ (recur : Vec3R → Vec3R → Vec3R) (inter : Intersect),
      0 < inter.material.albedo3 →
      refract incident inter.normal inter.material.refractive_index = none →
      refractComponent recur incident inter =
        recur
          (offset_origin inter (Vec3R.normalize (reflect incident inter.normal)))
          (Vec3R.normalize (reflect incident inter.normal))) := by
  constructor
  · simp only [refract, snellDisc]
    by_cases h : 0 < min (max (Vec3R.dot incident normal) (-1)) 1
    · rw [if_pos h, if_pos h]
      have hk : 1 - ri / 1 * (ri / 1) *
          (1 - min (max (Vec3R.dot incident normal) (-1)) 1 *
            min (max (Vec3R.dot incident normal) (-1)) 1) =
          1 - ri ^ 2 *
            (1 - min (max (Vec3R.dot incident normal) (-1)) 1 ^ 2) := by
        ring
      rw [hk]
      by_cases hneg : 1 - ri ^ 2 *
          (1 - min (max (Vec3R.dot incident normal) (-1)) 1 ^ 2) < 0
      · rw [if_pos hneg]
        exact iff_of_true rfl hneg
      · rw [if_neg hneg]
        exact iff_of_false (by simp) hneg
    · rw [if_neg h, if_neg h]
      have hk : 1 - 1 / ri * (1 / ri) *
          (1 - -min (max (Vec3R.dot incident normal) (-1)) 1 *
            -min (max (Vec3R.dot incident normal) (-1)) 1) =
          1 - (1 / ri) ^ 2 *
            (1 - min (max (Vec3R.dot incident normal) (-1)) 1 ^ 2) := by
        ring
      rw [hk]
      by_cases hneg : 1 - (1 / ri) ^ 2 *
          (1 - min (max (Vec3R.dot incident normal) (-1)) 1 ^ 2) < 0
      · rw [if_pos hneg]
        exact iff_of_true rfl hneg
      · rw [if_neg hneg]
        exact iff_of_false (by simp) hneg
  · intro recur inter hpos hnone
    simp only [refractComponent, if_pos hpos, hnone]

/-- A concrete hit record with a fully transparent material of refractive
index 2 whose shadow ray is irrelevant, used for the C6 witness. -/
def tirIntersect : Intersect :=
  { point := ⟨0, 0, 0⟩
    normal := ⟨0, 1, 0⟩
    distance := 0
    is_intersecting := true
    material := Material.with_texture ⟨0, 0, 0⟩ 0 0 0 0 1 2 'b'
    u := 0
    v := 0
    face := .Top }

/-- A trivial recursion stand-in for the C6 witness. -/
def recurZero : Vec3R → Vec3R → Vec3R := fun _ _ => ⟨0, 0, 0⟩

/-- Witness for C6: a grazing exit ray `(1, 1/2, 0)` against normal
`(0,1,0)` with refractive index 2 undergoes total internal reflection and
the refraction component falls back to the reflected trace. -/
theorem c6_witness :
    (0 : ℝ) < tirIntersect.material.albedo3 ∧
    refract ⟨1, 1/2, 0⟩ tirIntersect.normal
      tirIntersect.material.refractive_index = none ∧
    refractComponent recurZero ⟨1, 1/2, 0⟩ tirIntersect =
      recurZero
        (offset_origin tirIntersect
          (Vec3R.normalize (reflect ⟨1, 1/2, 0⟩ tirIntersect.normal)))
        (Vec3R.normalize (reflect ⟨1, 1/2, 0⟩ tirIntersect.normal)) := by
  have hpos : (0 : ℝ) < tirIntersect.material.albedo3 := by
    norm_num [tirIntersect, Material.with_texture]
  have hnone : refract ⟨1, 1/2, 0⟩ tirIntersect.normal
      tirIntersect.material.refractive_index = none := by
    have h1 : tirIntersect.normal = (⟨0, 1, 0⟩ : Vec3R) := rfl
    have h2 : tirIntersect.material.refractive_index = 2 := rfl
    rw [h1, h2]
    norm_num [refract, Vec3R.dot]
  exact ⟨hpos, hnone,
    (c6_refract_tir ⟨1, 1/2, 0⟩ tirIntersect.normal
      tirIntersect.material.refractive_index).2 recurZero tirIntersect
      hpos hnone⟩

/-- Claim C3: `cast_ray` terminates, and whenever `depth > 3` it returns
the procedural sky color for the direction with no intersection tests
(the result does not depend on the object list) and no further recursion;
every recursive call in the body passes `depth + 1`, so recursion chains
have length at most 4. -/
theorem c3_cast_ray_depth_cutoff (ray_origin ray_direction : Vec3R)
    (objects : List RayObject) (light : Light) (tm : TextureManager)
    (depth : ℕ) (h : 3 < depth) :
    cast_ray ray_origin ray_direction objects light tm depth =
      procedural_sky ray_direction ∧
    ∀ objects' : List RayObject,
      cast_ray ray_origin ray_direction objects' light tm depth =
        cast_ray ray_origin ray_direction objects light tm depth := by
  have key : ∀ objs : List RayObject,
      cast_ray ray_origin ray_direction objs light tm depth =
        procedural_sky ray_direction := by
    intro objs
    rw [cast_ray]
    rw [dif_pos h]
  exact ⟨key objects, fun objs' => by rw [key objs', key objects]⟩

/-- Witness for C3 at depth 4 with concrete scene data. -/
theorem c3_witness :
    cast_ray ⟨0, 0, 0⟩ ⟨0, 0, 1⟩ [] light0 emptyTM 4 =
      procedural_sky ⟨0, 0, 1⟩ :=
  (c3_cast_ray_depth_cutoff ⟨0, 0, 0⟩ ⟨0, 0, 1⟩ [] light0 emptyTM 4
    (by norm_num)).1

lemma classifyFace_spec (minv maxv : Vec3Q) (p : Vec3X) :
    (classifyFace minv maxv p).face = faceOrderClaim minv maxv p ∧
    (classifyFace minv maxv p).normal =
      normalOfFace (classifyFace minv maxv p).face ∧
    ((classifyFace minv maxv p).u, (classifyFace minv maxv p).v) =
      uvOfFace (classifyFace minv maxv p).face minv maxv p := by
  simp only [classifyFace, faceOrderClaim]
  split_ifs <;> simp [normalOfFace, uvOfFace]

/-- Claim C4: whenever `Cube::ray_intersect` reports a hit, the face is
classified by comparing the hit point against the six boundary planes
within absolute epsilon `1e-4` in the fixed order Left, Right, Bottom,
Top, Back, Front with the first successful test winning (so edge/corner
ties deterministically resolve to the first-listed face), and that
first-match face determines the outward normal and the face-local UV
projection. -/
theorem c4_face_classification_order (c : Cube) (o d : Vec3Q)
    (hhit : (c.ray_intersect o d).is_intersecting = true) :
    (c.ray_intersect o d).face =
      faceOrderClaim c.minV c.maxV (c.ray_intersect o d).point ∧
    (c.ray_intersect o d).normal = normalOfFace (c.ray_intersect o d).face ∧
    ((c.ray_intersect o d).u, (c.ray_intersect o d).v) =
      uvOfFace (c.ray_intersect o d).face c.minV c.maxV
        (c.ray_intersect o d).point := by
  simp only [Cube.ray_intersect] at hhit ⊢
  split_ifs at hhit ⊢ with h1 h2 h3
  · simp [IntersectX.empty] at hhit
  · simp [IntersectX.empty] at hhit
  · simp [IntersectX.empty] at hhit
  · exact classifyFace_spec _ _ _

/-- Witness for C4: a ray grazing the unit cube exactly along its
`y = max.y` edge plane hits with the point on both the Left and Top
planes within epsilon; the first-listed face (Left) wins. -/
theorem c4_witness :
    (unitCube.ray_intersect ⟨-5, 1/2, 0⟩ ⟨1, 0, 0⟩).is_intersecting = true ∧
    (unitCube.ray_intersect ⟨-5, 1/2, 0⟩ ⟨1, 0, 0⟩).face = .Left ∧
    ((unitCube.ray_intersect ⟨-5, 1/2, 0⟩ ⟨1, 0, 0⟩).face =
      faceOrderClaim unitCube.minV unitCube.maxV
        (unitCube.ray_intersect ⟨-5, 1/2, 0⟩ ⟨1, 0, 0⟩).point ∧
    (unitCube.ray_intersect ⟨-5, 1/2, 0⟩ ⟨1, 0, 0⟩).normal =
      normalOfFace (unitCube.ray_intersect ⟨-5, 1/2, 0⟩ ⟨1, 0, 0⟩).face ∧
    ((unitCube.ray_intersect ⟨-5, 1/2, 0⟩ ⟨1, 0, 0⟩).u,
      (unitCube.ray_intersect ⟨-5, 1/2, 0⟩ ⟨1, 0, 0⟩).v) =
      uvOfFace (unitCube.ray_intersect ⟨-5, 1/2, 0⟩ ⟨1, 0, 0⟩).face
        unitCube.minV unitCube.maxV
        (unitCube.ray_intersect ⟨-5, 1/2, 0⟩ ⟨1, 0, 0⟩).point) := by
  have hhit : (unitCube.ray_intersect ⟨-5, 1/2, 0⟩ ⟨1, 0, 0⟩).is_intersecting
      = true := by
    norm_num [Cube.ray_intersect, classifyFace, Cube.minV, Cube.maxV,
      unitCube, slabOrder, slabLower, slabUpper, pickEntry,
      XRat.lt, XRat.mul, XRat.add, XRat.sub, XRat.neg, XRat.abs,
      XRat.div, XRat.recipQ, abs_lt]
  refine ⟨hhit, ?_, c4_face_classification_order unitCube ⟨-5, 1/2, 0⟩
    ⟨1, 0, 0⟩ hhit⟩
  norm_num [Cube.ray_intersect, classifyFace, Cube.minV, Cube.maxV,
    unitCube, slabOrder, slabLower, slabUpper, pickEntry,
    XRat.lt, XRat.mul, XRat.add, XRat.sub, XRat.neg, XRat.abs,
    XRat.div, XRat.recipQ, abs_lt]

lemma Vec3R.sub_eq_zero_iff (a b : Vec3R) :
    a.sub b = ⟨0, 0, 0⟩ ↔ a = b := by
  cases a
  cases b
  simp [Vec3R.sub, Vec3R.mk.injEq, sub_eq_zero]

lemma Vec3R.add_sub_cancel_left (a b : Vec3R) : (a.add b).sub a = b := by
  cases a
  cases b
  simp only [Vec3R.add, Vec3R.sub, Vec3R.mk.injEq]
  refine ⟨by ring, by ring, by ring⟩

/-- Claim C7: one application of `update_basis_vectors` to a camera whose
eye differs from its center and whose up vector is not parallel to the
forward direction produces an exactly orthonormal forward/right/up basis;
`Camera::new`, `orbit` and `zoom` each end by invoking it, so the
invariant holds after construction and after every orbit/zoom call. -/
theorem c7_basis_orthonormal (c : Camera) (h1 : c.eye ≠ c.center)
    (h2 : Vec3R.cross (Vec3R.normalize (c.center.sub c.eye)) c.up ≠
      ⟨0, 0, 0⟩) :
    basisOrthonormal (Camera.update_basis_vectors c) := by
  have hw : c.center.sub c.eye ≠ ⟨0, 0, 0⟩ :=
    fun h => h1 ((Vec3R.sub_eq_zero_iff _ _).mp h).symm
  set f := Vec3R.normalize (c.center.sub c.eye) with hf
  set r := Vec3R.normalize (Vec3R.cross f c.up) with hr
  have hff : Vec3R.dot f f = 1 := Vec3R.dot_normalize_self hw
  have hflen : Vec3R.length f = 1 := Vec3R.length_normalize hw
  have hrr : Vec3R.dot r r = 1 := Vec3R.dot_normalize_self h2
  have hrlen : Vec3R.length r = 1 := Vec3R.length_normalize h2
  have hfr : Vec3R.dot f r = 0 := by
    rw [Vec3R.dot_comm, hr, Vec3R.dot_normalize_left h2 f,
      Vec3R.dot_cross_left]
    simp
  have hfu : Vec3R.dot f (Vec3R.cross r f) = 0 := by
    rw [Vec3R.dot_comm]
    exact Vec3R.dot_cross_right r f
  have hru : Vec3R.dot r (Vec3R.cross r f) = 0 := by
    rw [Vec3R.dot_comm]
    exact Vec3R.dot_cross_left r f
  have huu : Vec3R.dot (Vec3R.cross r f) (Vec3R.cross r f) = 1 := by
    rw [Vec3R.dot_cross_cross, hrr, hff]
    rw [Vec3R.dot_comm] at hfr
    rw [hfr]
    ring
  have hulen : Vec3R.length (Vec3R.cross r f) = 1 := by
    unfold Vec3R.length
    rw [huu, Real.sqrt_one]
  refine ⟨?_, ?_, ?_, ?_, ?_, ?_⟩ <;>
    simp only [Camera.update_basis_vectors, basisOrthonormal, ← hf, ← hr]
  · exact hflen
  · exact hrlen
  · exact hulen
  · exact hfr
  · exact hfu
  · exact hru

/-- The concrete camera used by the camera witnesses: eye `(0,0,5)`,
center at the origin, world up `(0,1,0)`. -/
def camera0 : Camera :=
  { eye := ⟨0, 0, 5⟩, center := ⟨0, 0, 0⟩, up := ⟨0, 1, 0⟩,
    forward := ⟨0, 0, 0⟩, right := ⟨0, 0, 0⟩ }

/-- Witness for C7 at the concrete camera. -/
theorem c7_witness :
    camera0.eye ≠ camera0.center ∧
    Vec3R.cross (Vec3R.normalize (camera0.center.sub camera0.eye))
      camera0.up ≠ ⟨0, 0, 0⟩ ∧
    basisOrthonormal (Camera.update_basis_vectors camera0) := by
  have h1 : camera0.eye ≠ camera0.center := by
    simp only [camera0]
    intro h
    have := congrArg Vec3R.z h
    norm_num at this
  have hwvec : camera0.center.sub camera0.eye = (⟨0, 0, -5⟩ : Vec3R) := by
    simp only [camera0, Vec3R.sub]
    norm_num
  have hwne : (⟨0, 0, -5⟩ : Vec3R) ≠ (⟨0, 0, 0⟩ : Vec3R) := by
    intro h
    have := congrArg Vec3R.z h
    norm_num at this
  have hl := Vec3R.length_pos hwne
  have h2 : Vec3R.cross (Vec3R.normalize (camera0.center.sub camera0.eye))
      camera0.up ≠ ⟨0, 0, 0⟩ := by
    rw [hwvec, Vec3R.normalize_eq hwne]
    intro h
    have hx := congrArg Vec3R.x h
    simp only [camera0, Vec3R.cross] at hx
    field_simp [ne_of_gt hl] at hx
  exact ⟨h1, h2, c7_basis_orthonormal camera0 h1 h2⟩

/-- Claim C8: after every `orbit` call, for any yaw/pitch deltas, the
eye's implied pitch `asin((eye - center).y / |eye - center|)` lies within
`[-1.5, 1.5]` radians: the new pitch is clamped into that range before
the eye is rebuilt from spherical coordinates, so repeated calls with
arbitrarily large cumulative deltas never escape it. -/
theorem c8_pitch_clamp (c : Camera) (yaw pitch : ℝ) :
    -(3/2) ≤ impliedPitch (c.orbit yaw pitch) ∧
    impliedPitch (c.orbit yaw pitch) ≤ 3/2 := by
  simp only [Camera.orbit, Camera.update_basis_vectors, impliedPitch]
  rw [Vec3R.add_sub_cancel_left]
  set R := Vec3R.length (c.eye.sub c.center) with hR
  set np := rclamp (Real.arcsin ((c.eye.sub c.center).y / R) + pitch)
    (-(3/2)) (3/2) with hnp
  set ny := atan2 (c.eye.sub c.center).z (c.eye.sub c.center).x + yaw with hny
  have hnp_le : np ≤ 3/2 := min_le_right _ _
  have hnp_ge : -(3/2) ≤ np := le_min (le_max_right _ _) (by norm_num)
  have hhalfpi : (3/2 : ℝ) < Real.pi / 2 := by
    have := Real.pi_gt_three
    linarith
  have hRnn : 0 ≤ R := Vec3R.length_nonneg _
  set nrel : Vec3R := ⟨R * Real.cos np * Real.cos ny, R * Real.sin np,
    R * Real.cos np * Real.sin ny⟩ with hnrel
  have hdot : Vec3R.dot nrel nrel = R ^ 2 := by
    simp only [hnrel, Vec3R.dot]
    have h1 := Real.sin_sq_add_cos_sq ny
    have h2 := Real.sin_sq_add_cos_sq np
    linear_combination R ^ 2 * Real.cos np ^ 2 * h1 + R ^ 2 * h2
  have hlen : Vec3R.length nrel = R := by
    unfold Vec3R.length
    rw [hdot, Real.sqrt_sq hRnn]
  rcases eq_or_lt_of_le hRnn with hR0 | hRpos
  · have hy : nrel.y = 0 := by
      simp only [hnrel, ← hR0]
      ring
    rw [hy]
    simp only [zero_div, Real.arcsin_zero]
    norm_num
  · have hy : nrel.y / Vec3R.length nrel = Real.sin np := by
      rw [hlen]
      simp only [hnrel]
      field_simp
    rw [hy, Real.arcsin_sin (by linarith) (by linarith)]
    exact ⟨hnp_ge, hnp_le⟩

/-- Claim C9: after every `zoom(factor)` call with positive factor on a
camera with `eye ≠ center`, the eye-to-center distance lies in
`[1, 100]`; the center is unchanged and the new eye offset is a positive
scalar multiple of the old one (zoom moves the eye only along the
eye-to-center line). -/
theorem c9_zoom_clamp (c : Camera) (factor : ℝ) (hne : c.eye ≠ c.center)
    (hf : 0 < factor) :
    (1 ≤ Vec3R.length ((c.zoom factor).eye.sub (c.zoom factor).center) ∧
      Vec3R.length ((c.zoom factor).eye.sub (c.zoom factor).center) ≤ 100) ∧
    (c.zoom factor).center = c.center ∧
    ∃ k : ℝ, 0 < k ∧
      (c.zoom factor).eye.sub (c.zoom factor).center =
        (c.eye.sub c.center).scale k := by
  have hrel : c.eye.sub c.center ≠ ⟨0, 0, 0⟩ :=
    fun h => hne ((Vec3R.sub_eq_zero_iff _ _).mp h)
  have hd : 0 < Vec3R.length (c.eye.sub c.center) := Vec3R.length_pos hrel
  set d := Vec3R.length (c.eye.sub c.center) with hdd
  set nd := rclamp (d * factor) 1 100 with hnd
  have hnd1 : 1 ≤ nd := le_min (le_max_right _ _) (by norm_num)
  have hnd100 : nd ≤ 100 := min_le_right _ _
  have heye : (c.zoom factor).eye.sub (c.zoom factor).center =
      (c.eye.sub c.center).scale (nd / d) := by
    simp only [Camera.zoom, Camera.update_basis_vectors]
    rw [Vec3R.add_sub_cancel_left]
    rw [Vec3R.scale_normalize hrel]
  have hcen : (c.zoom factor).center = c.center := by
    simp only [Camera.zoom, Camera.update_basis_vectors]
  have hlen : Vec3R.length ((c.zoom factor).eye.sub (c.zoom factor).center)
      = nd := by
    rw [heye, Vec3R.length_scale, ← hdd]
    rw [abs_of_pos (div_pos (by linarith) hd)]
    field_simp
  refine ⟨⟨by rw [hlen]; exact hnd1, by rw [hlen]; exact hnd100⟩, hcen,
    ⟨nd / d, div_pos (by linarith) hd, heye⟩⟩

/-- Witness for C9 at the concrete camera and factor 2. -/
theorem c9_witness :
    camera0.eye ≠ camera0.center ∧ (0 : ℝ) < 2 ∧
    ((1 ≤ Vec3R.length ((camera0.zoom 2).eye.sub (camera0.zoom 2).center) ∧
      Vec3R.length ((camera0.zoom 2).eye.sub (camera0.zoom 2).center) ≤ 100) ∧
    (camera0.zoom 2).center = camera0.center ∧
    ∃ k : ℝ, 0 < k ∧
      (camera0.zoom 2).eye.sub (camera0.zoom 2).center =
        (camera0.eye.sub camera0.center).scale k) := by
  have h1 : camera0.eye ≠ camera0.center := by
    simp only [camera0]
    intro h
    have := congrArg Vec3R.z h
    norm_num at this
  exact ⟨h1, by norm_num, c9_zoom_clamp camera0 2 h1 (by norm_num)⟩
